/-
Verification of the Sisteama / TaleKeeper adjudication core against its
design specification.

The repository snapshot contains the database schema (SQL helper functions
ability_modifier and proficiency_bonus), the RandomBag.js library with its
game.js driver, and design documents.  The dice engine, combatant model and
encounter state machine described by the specification (core/dice_engine.py,
flows/talekeeper.py) are not present in the snapshot, so those components are
modelled here directly from the specification's words; each such definition
carries a doc comment saying so.
-/
import Mathlib

set_option maxHeartbeats 1000000

namespace Sisteama

/-! ## Database helper functions (src/unnamed/part_003, SQL schema)

`ability_modifier` is `FLOOR((score - 10) / 2.0)`: exact (real-valued)
division by 2, then floor.  `proficiency_bonus` is `CEIL(level / 4.0) + 1`.
Both are embedded with rational arithmetic and `Int.floor` / `Int.ceil`,
matching SQL numeric division and FLOOR/CEIL. -/

/-- Embeds the SQL function `ability_modifier(score INTEGER)`:
`RETURN FLOOR((score - 10) / 2.0)`. -/
def ability_modifier (score : Int) : Int :=
  ⌊((score : ℚ) - 10) / 2⌋

/-- Embeds the SQL function `proficiency_bonus(level INTEGER)`:
`RETURN CEIL(level / 4.0) + 1`. -/
def proficiency_bonus (level : Int) : Int :=
  ⌈(level : ℚ) / 4⌉ + 1

/-! ## RandomBag (src/examples_and_libraries/RandomBag.js)

The bag holds five mutable fields (`originalItems`, `remainingItems`,
`cycleCount`, `drawHistory`, `totalDraws`).  JavaScript arrays become Lean
lists; the nondeterministic `Math.floor(Math.random() * len)` index in
`draw` becomes an explicit index parameter reduced mod the list length
(every index the JS code can pick is of this shape, and vice versa).
When the effective list is empty the JS `splice` yields `undefined`,
modelled as `none`. -/

/-- One entry of `drawHistory`: the object pushed by `draw`
(`{item, drawNumber, cycle}`). -/
structure DrawRecord (α : Type) where
  item : Option α
  drawNumber : Nat
  cycle : Nat
deriving DecidableEq

/-- The `RandomBag` class fields. -/
structure RandomBag (α : Type) where
  originalItems : List α
  remainingItems : List α
  cycleCount : Nat
  drawHistory : List (DrawRecord α)
  totalDraws : Nat
deriving DecidableEq

namespace RandomBag

/-- The `RandomBag` constructor: copies `items` into both arrays and zeroes
the statistics. -/
def create (items : List α) : RandomBag α :=
  ⟨items, items, 0, [], 0⟩

/-- The serializable state object returned by `exportState`. -/
structure BagState (α : Type) where
  originalItems : List α
  remainingItems : List α
  cycleCount : Nat
  drawHistory : List (DrawRecord α)
  totalDraws : Nat
deriving DecidableEq

/-- `exportState()`: returns the five fields as a state object. -/
def exportState (b : RandomBag α) : BagState α :=
  ⟨b.originalItems, b.remainingItems, b.cycleCount, b.drawHistory, b.totalDraws⟩

/-- `importState(state)`: overwrites every field of the bag from the saved
state (arrays copied). -/
def importState (_b : RandomBag α) (s : BagState α) : RandomBag α :=
  ⟨s.originalItems, s.remainingItems, s.cycleCount, s.drawHistory, s.totalDraws⟩

/-- `reset()`: refills `remainingItems` from `originalItems`. -/
def reset (b : RandomBag α) : RandomBag α :=
  { b with remainingItems := b.originalItems }

/-- `draw()`: if the bag is empty it is first refilled and `cycleCount`
incremented; then the item at the (random) index is removed, and a history
record is pushed.  `i` stands for the random choice; the effective index is
`i % length`, exactly the range `Math.floor(Math.random() * length)` can
produce (and `i % 0 = i` is harmless: an empty list yields `none` and
`eraseIdx` is the identity, as `splice` on `[]` is). -/
def draw (b : RandomBag α) (i : Nat) : Option α × RandomBag α :=
  let rem := if b.remainingItems.isEmpty then b.originalItems else b.remainingItems
  let cyc := if b.remainingItems.isEmpty then b.cycleCount + 1 else b.cycleCount
  let idx := i % rem.length
  let selected := rem[idx]?
  ⟨selected,
    { b with
      remainingItems := rem.eraseIdx idx
      cycleCount := cyc
      totalDraws := b.totalDraws + 1
      drawHistory := b.drawHistory ++ [⟨selected, b.totalDraws + 1, cyc⟩] }⟩

/-- A mutation permitted by claim C9: a call to `draw` (with its random
index choice) or to `reset`. -/
inductive BagOp where
  | draw (i : Nat)
  | reset
deriving DecidableEq

/-- Apply one mutation. -/
def applyOp (b : RandomBag α) : BagOp → RandomBag α
  | .draw i => (b.draw i).2
  | .reset => b.reset

/-- Apply a sequence of mutations, oldest first. -/
def applyOps (b : RandomBag α) : List BagOp → RandomBag α
  | [] => b
  | op :: ops => applyOps (b.applyOp op) ops

/-- Number of history records of cycle `c` recording item `x`. -/
def cycleItemCount [DecidableEq α] (h : List (DrawRecord α)) (c : Nat) (x : α) : Nat :=
  h.countP fun r => decide (r.cycle = c ∧ r.item = some x)

end RandomBag

/-! ## Dice Resolver, Combatant Model and Encounter State Machine

The implementation files (`core/dice_engine.py`, `flows/talekeeper.py`) are
not part of the repository snapshot — only their design documents are — so
every definition in this section is modelled from the specification, 4.1–4.3
and 7.  Randomness is supplied from outside: each function takes the die
values it consumes as explicit arguments, the test-double style the
specification itself prescribes for replay checking. -/

/-- Modelled from the spec: `DiceExpression`, the immutable parsed form of a
notation string (count, die size, flat modifier); the dice engine source is
missing from the snapshot. -/
structure DiceExpression where
  count : Nat
  dieSize : Nat
  modifier : Int
deriving DecidableEq

/-- Sum of the first `n` die draws, as an integer.  `rolls i` is the value
showing on the `i`-th die. -/
def diceSum (n : Nat) (rolls : Nat → Nat) : Int :=
  ((List.range n).map fun i => (rolls i : Int)).sum

/-- Modelled from the spec: the multi-die damage path of `rollExpression` —
sums all dice plus the flat modifier (the dice engine source is missing
from the snapshot). -/
def rollExpression (expr : DiceExpression) (rolls : Nat → Nat) : Int :=
  diceSum expr.count rolls + expr.modifier

/-- Modelled from the spec: `rollDamage(expr, critical)` — on a critical the
number of dice rolled is doubled (not the flat modifier) before summing, and
the result is floored at 0 (the dice engine source is missing from the
snapshot). -/
def rollDamage (expr : DiceExpression) (critical : Bool) (rolls : Nat → Nat) : Int :=
  max 0 (diceSum (if critical then 2 * expr.count else expr.count) rolls + expr.modifier)

/-- Modelled from the spec: the result record of `resolveAttack`. -/
structure AttackOutcome where
  hit : Bool
  critical : Bool
  natural : Nat
  total : Int
deriving DecidableEq

/-- Modelled from the spec: `resolveAttack(attackBonus, targetAC)` given the
natural d20 value (after any advantage keep): a natural 20 is always a hit
and a critical; a natural 1 is always a miss regardless of total; otherwise
hit iff total is at least targetAC (the dice engine source is missing from
the snapshot). -/
def resolveAttack (attackBonus targetAC : Int) (natural : Nat) : AttackOutcome :=
  if natural = 20 then ⟨true, true, natural, natural + attackBonus⟩
  else if natural = 1 then ⟨false, false, natural, natural + attackBonus⟩
  else ⟨decide (targetAC ≤ (natural : Int) + attackBonus), false, natural,
    (natural : Int) + attackBonus⟩

/-- Side of a combatant, per the data model. -/
inductive Side where
  | player
  | monster
deriving DecidableEq

/-- Modelled from the spec: the Combatant fields the HP bookkeeping and the
encounter machine need (the combatant model source is missing from the
snapshot). -/
structure Combatant where
  id : Nat
  side : Side
  maxHP : Int
  currentHP : Int
  tempHP : Int
  ac : Int
deriving DecidableEq

/-- Modelled from the spec: the error taxonomy of section 7. -/
inductive GameError where
  | MalformedExpression
  | InvalidModifierCombination
  | InvalidAmount
  | IllegalAction
  | EncounterClosed
  | PersistenceFailure
deriving DecidableEq

/-- Modelled from the spec: the HP mutation inside `applyDamage` —
temporary HP absorbs first (reduced before current HP), the remainder is
subtracted from current HP, floored at 0 (the combatant model source is
missing from the snapshot). -/
def takeDamage (c : Combatant) (amount : Int) : Combatant :=
  { c with
    tempHP := c.tempHP - min c.tempHP amount
    currentHP := max 0 (c.currentHP - (amount - min c.tempHP amount)) }

/-- Modelled from the spec: `applyDamage(amount)` — a negative amount fails
with `InvalidAmount` before any state mutation. -/
def applyDamage (c : Combatant) (amount : Int) : Except GameError Combatant :=
  if amount < 0 then .error .InvalidAmount else .ok (takeDamage c amount)

/-- Modelled from the spec: `applyHealing(amount)` — a negative amount
fails; current HP is increased, capped at max HP. -/
def applyHealing (c : Combatant) (amount : Int) : Except GameError Combatant :=
  if amount < 0 then .error .InvalidAmount
  else .ok { c with currentHP := min c.maxHP (c.currentHP + amount) }

/-- Modelled from the spec: the encounter lifecycle states of section 4.3. -/
inductive EncState where
  | Forming
  | Active
  | Resolved
  | Fled
  | Aborted
deriving DecidableEq

/-- Modelled from the spec: `ActionResolution`, the immutable record of one
resolved action appended to the log — roll value, success, critical flag,
damage applied. -/
structure ActionResolution where
  actorId : Nat
  targetId : Nat
  natural : Nat
  hit : Bool
  critical : Bool
  damageApplied : Int
deriving DecidableEq

/-- Modelled from the spec: the Encounter record — lifecycle state,
combatants in initiative order, round number, turn index, append-only
action log. -/
structure Encounter where
  lifecycle : EncState
  combatants : List Combatant
  round : Nat
  turnIndex : Nat
  log : List ActionResolution
deriving DecidableEq

/-- Modelled from the spec: an action request submitted to the encounter.
The d20 value and the damage die values are passed in explicitly (the dice
test double of section 8). -/
inductive Request where
  | attack (actorId targetId : Nat) (attackBonus : Int) (expr : DiceExpression)
      (d20 : Nat) (damageRolls : List Nat)
  | flee (side : Side)
deriving DecidableEq

/-- Turns a list of supplied die values into the draw source consumed by the
dice functions (missing draws default to 1). -/
def rollsOf (l : List Nat) : Nat → Nat :=
  fun i => l.getD i 1

/-- Applies a logged resolution to the combatant list: the recorded damage is
applied to the recorded target.  Used both by the live step and by replay. -/
def applyResolution (cs : List Combatant) (r : ActionResolution) : List Combatant :=
  cs.map fun c => if c.id = r.targetId then takeDamage c r.damageApplied else c

/-- True when every combatant of side `s` is incapacitated (current HP at
or below 0). -/
def sideDefeated (cs : List Combatant) (s : Side) : Bool :=
  cs.all fun c => decide (c.side = s → c.currentHP ≤ 0)

/-- The combatant whose turn it is. -/
def turnHolder (e : Encounter) : Option Combatant :=
  e.combatants[e.turnIndex]?

/-- Modelled from the spec: `submitAction` of the encounter state machine.
Terminal states reject with `EncounterClosed`; `Forming` accepts no
actions; in `Active` the request is validated (turn holder, live
opposite-side target), resolved through the dice functions, the target
mutated via the combatant model, an `ActionResolution` appended to the log,
the turn advanced (wrapping into a new round after the last combatant) and
termination evaluated (a side with every member incapacitated resolves the
encounter). -/
def submitAction (e : Encounter) (req : Request) : Except GameError Encounter :=
  match e.lifecycle with
  | .Resolved => .error .EncounterClosed
  | .Fled => .error .EncounterClosed
  | .Aborted => .error .EncounterClosed
  | .Forming => .error .IllegalAction
  | .Active =>
    match turnHolder e with
    | none => .error .IllegalAction
    | some actor =>
      match req with
      | .flee s =>
        if actor.side = s then .ok { e with lifecycle := .Fled }
        else .error .IllegalAction
      | .attack actorId targetId attackBonus expr d20 damageRolls =>
        if actor.id ≠ actorId then .error .IllegalAction
        else
          match e.combatants.find? fun c => decide (c.id = targetId) with
          | none => .error .IllegalAction
          | some target =>
            if target.side = actor.side ∨ target.currentHP ≤ 0 then
              .error .IllegalAction
            else
              let out := resolveAttack attackBonus target.ac d20
              let dmg :=
                if out.hit then rollDamage expr out.critical (rollsOf damageRolls)
                else 0
              let res : ActionResolution :=
                ⟨actorId, targetId, d20, out.hit, out.critical, dmg⟩
              let cs2 := applyResolution e.combatants res
              .ok {
                lifecycle :=
                  if sideDefeated cs2 .player || sideDefeated cs2 .monster then
                    .Resolved
                  else .Active
                combatants := cs2
                round := if e.turnIndex + 1 = cs2.length then e.round + 1 else e.round
                turnIndex := if e.turnIndex + 1 = cs2.length then 0 else e.turnIndex + 1
                log := e.log ++ [res] }

/-- An encounter that has just transitioned to `Active`: the given
combatants in initiative order, round 1, turn index 0, empty log. -/
def mkEncounter (cs : List Combatant) : Encounter :=
  ⟨.Active, cs, 1, 0, []⟩

/-- Runs a sequence of requests; a rejected request leaves the encounter
unchanged (errors are returned to the caller without mutation). -/
def runRequests (e : Encounter) : List Request → Encounter
  | [] => e
  | r :: rs =>
    runRequests (match submitAction e r with | .ok e2 => e2 | .error _ => e) rs

/-- Modelled from the spec: replay of the append-only action log — each
logged resolution is applied, in order, to the combatant snapshots. -/
def replay (cs : List Combatant) (log : List ActionResolution) : List Combatant :=
  log.foldl applyResolution cs

end Sisteama

namespace Sisteama

/-! ## Theorems for the database helper functions -/

/-- C1: for every ability score in 1–30 (indeed for every integer score),
`ability_modifier` returns the floor of (score − 10)/2 — `Int.fdiv` is
floor division — with the floor acting on negative halves; in particular
−2 at score 7, 0 at score 10 and +10 at score 30. -/
theorem ability_modifier_is_floor (score : Int)
    (h1 : 1 ≤ score) (h2 : score ≤ 30) :
    ability_modifier score = Int.fdiv (score - 10) 2 ∧
    ability_modifier 7 = -2 ∧ ability_modifier 10 = 0 ∧ ability_modifier 30 = 10 := by
  have key : ∀ s : Int, ability_modifier s = Int.fdiv (s - 10) 2 := by
    intro s
    have hcast : ((s : ℚ) - 10) / 2 = ((s - 10 : ℤ) : ℚ) / ((2 : ℕ) : ℚ) := by
      push_cast
      ring
    have h2nn : (0 : ℤ) ≤ 2 := by norm_num
    rw [ability_modifier, hcast, Rat.floor_intCast_div_natCast,
      Int.fdiv_eq_ediv _ h2nn]
    norm_num
  refine ⟨key score, ?_, ?_, ?_⟩
  · rw [key 7]; decide
  · rw [key 10]; decide
  · rw [key 30]; decide

/-- Witness for `ability_modifier_is_floor` at score 7. -/
theorem ability_modifier_is_floor_witness :
    (1 : Int) ≤ 7 ∧ (7 : Int) ≤ 30 ∧
      (ability_modifier 7 = Int.fdiv (7 - 10) 2 ∧
       ability_modifier 7 = -2 ∧ ability_modifier 10 = 0 ∧ ability_modifier 30 = 10) :=
  ⟨by norm_num, by norm_num,
    ability_modifier_is_floor 7 (by norm_num) (by norm_num)⟩

/-- Claim C10: for every level at least 1, `proficiency_bonus` returns
the ceiling of level/4, plus 1; it returns 2 for levels 1–4, grows by
exactly 1 every 4 levels, and is monotone in the level. -/
theorem proficiency_bonus_spec (level l1 l2 : Int)
    (h : 1 ≤ level) (hmono : l1 ≤ l2) :
    proficiency_bonus level = ⌈(level : ℚ) / 4⌉ + 1 ∧
    (level ≤ 4 → proficiency_bonus level = 2) ∧
    proficiency_bonus (level + 4) = proficiency_bonus level + 1 ∧
    proficiency_bonus l1 ≤ proficiency_bonus l2 := by
  refine ⟨rfl, ?_, ?_, ?_⟩
  · intro h4
    have hq0 : (0 : ℚ) < (level : ℚ) := by
      have : (1 : ℚ) ≤ (level : ℚ) := by exact_mod_cast h
      linarith
    have hle : (level : ℚ) / 4 ≤ 1 := by
      rw [div_le_one (by norm_num : (0 : ℚ) < 4)]
      exact_mod_cast h4
    have hone : ⌈(level : ℚ) / 4⌉ = 1 := by
      rw [Int.ceil_eq_iff]
      constructor
      · push_cast
        have : (0 : ℚ) < (level : ℚ) / 4 := by positivity
        linarith
      · exact_mod_cast hle
    rw [proficiency_bonus, hone]
    norm_num
  · have hstep : ((level + 4 : ℤ) : ℚ) / 4 = (level : ℚ) / 4 + 1 := by
      push_cast
      ring
    rw [proficiency_bonus, proficiency_bonus, hstep, Int.ceil_add_one]
  · have hdiv : (l1 : ℚ) / 4 ≤ (l2 : ℚ) / 4 := by
      gcongr
    exact add_le_add_right (Int.ceil_le_ceil hdiv) 1

/-- Witness for `proficiency_bonus_spec` at level 3 (and 2 ≤ 10 for the
monotonicity instance). -/
theorem proficiency_bonus_spec_witness :
    (1 : Int) ≤ 3 ∧ (2 : Int) ≤ 10 ∧
      (proficiency_bonus 3 = ⌈(3 : ℚ) / 4⌉ + 1 ∧
       ((3 : Int) ≤ 4 → proficiency_bonus 3 = 2) ∧
       proficiency_bonus (3 + 4) = proficiency_bonus 3 + 1 ∧
       proficiency_bonus 2 ≤ proficiency_bonus 10) :=
  ⟨by norm_num, by norm_num,
    proficiency_bonus_spec 3 2 10 (by norm_num) (by norm_num)⟩

/-! ## Theorems for RandomBag -/

/-- Claim C8: importing the state exported by any bag reproduces that bag
exactly — all five fields (`originalItems`, `remainingItems`, `cycleCount`,
`drawHistory`, `totalDraws`) — whatever bag the import overwrites, so
subsequent operations behave identically. -/
theorem exportState_importState_roundTrip {α : Type} (a b : RandomBag α) :
    RandomBag.importState b (RandomBag.exportState a) = a := by
  cases a
  rfl

/-- Helper: removing the element at an index lowers the count of a value by
one exactly when that element is the value. -/
theorem count_eraseIdx_add {α : Type} [DecidableEq α] :
    ∀ (l : List α) (idx : Nat) (x : α),
      (l.eraseIdx idx).count x + (if l[idx]? = some x then 1 else 0) = l.count x
  | [], idx, x => by simp
  | a :: tl, 0, x => by
    by_cases hax : a = x <;> simp [List.count_cons, hax]
  | a :: tl, idx + 1, x => by
    have h := count_eraseIdx_add tl idx x
    by_cases hax : a = x <;> simp [List.count_cons, hax] <;> omega

/-- Helper: pushing one record onto the history adds one to the per-cycle
count exactly when the record matches. -/
theorem cycleItemCount_append {α : Type} [DecidableEq α]
    (hh : List (DrawRecord α)) (r : DrawRecord α) (c : Nat) (x : α) :
    RandomBag.cycleItemCount (hh ++ [r]) c x =
      RandomBag.cycleItemCount hh c x +
        (if r.cycle = c ∧ r.item = some x then 1 else 0) := by
  simp [RandomBag.cycleItemCount, List.countP_append, List.countP_cons]

/-- Helper: a cycle number above every recorded cycle has an empty count. -/
theorem cycleItemCount_high {α : Type} [DecidableEq α]
    (hh : List (DrawRecord α)) (c m : Nat)
    (hall : ∀ r ∈ hh, r.cycle ≤ m) (hc : m < c) (x : α) :
    RandomBag.cycleItemCount hh c x = 0 := by
  rw [RandomBag.cycleItemCount, List.countP_eq_zero]
  intro r hr
  simp only [decide_eq_true_eq, not_and]
  intro hcy
  have := hall r hr
  omega

/-- Helper: a single `draw` or `reset` keeps the remaining items a
sub-multiset of the original items. -/
theorem applyOp_rem_le {α : Type} (b : RandomBag α) (op : RandomBag.BagOp)
    (h : (b.remainingItems : Multiset α) ≤ (b.originalItems : Multiset α)) :
    ((b.applyOp op).remainingItems : Multiset α) ≤
      ((b.applyOp op).originalItems : Multiset α) := by
  cases op with
  | reset => simp [RandomBag.applyOp, RandomBag.reset]
  | draw i =>
    cases hemp : b.remainingItems.isEmpty with
    | true =>
      simp only [RandomBag.applyOp, RandomBag.draw, hemp, if_true]
      exact le_trans (Multiset.coe_le.mpr (List.eraseIdx_sublist _ _).subperm) le_rfl
    | false =>
      simp only [RandomBag.applyOp, RandomBag.draw, hemp, if_false]
      exact le_trans (Multiset.coe_le.mpr (List.eraseIdx_sublist _ _).subperm) h

/-- Helper: any sequence of `draw`/`reset` operations keeps the remaining
items a sub-multiset of the original items. -/
theorem applyOps_rem_le {α : Type} (ops : List RandomBag.BagOp) (b : RandomBag α)
    (h : (b.remainingItems : Multiset α) ≤ (b.originalItems : Multiset α)) :
    ((b.applyOps ops).remainingItems : Multiset α) ≤
      ((b.applyOps ops).originalItems : Multiset α) := by
  induction ops generalizing b with
  | nil => exact h
  | cons op ops ih => exact ih _ (applyOp_rem_le b op h)

/-- Helper: one `draw` preserves the cycle bookkeeping invariant — the
current cycle's recorded draws plus the remaining items account exactly for
the original multiset, record cycles never exceed `cycleCount`, and closed
cycles never over-record any item. -/
theorem draw_step {α : Type} [DecidableEq α] (items : List α) (b : RandomBag α) (i : Nat)
    (h1 : b.originalItems = items)
    (h2 : ∀ x, RandomBag.cycleItemCount b.drawHistory b.cycleCount x +
      b.remainingItems.count x = items.count x)
    (h3 : ∀ r ∈ b.drawHistory, r.cycle ≤ b.cycleCount)
    (h4 : ∀ c, c < b.cycleCount → ∀ x,
      RandomBag.cycleItemCount b.drawHistory c x ≤ items.count x) :
    (b.draw i).2.originalItems = items ∧
    (∀ x, RandomBag.cycleItemCount (b.draw i).2.drawHistory (b.draw i).2.cycleCount x +
      (b.draw i).2.remainingItems.count x = items.count x) ∧
    (∀ r ∈ (b.draw i).2.drawHistory, r.cycle ≤ (b.draw i).2.cycleCount) ∧
    (∀ c, c < (b.draw i).2.cycleCount → ∀ x,
      RandomBag.cycleItemCount (b.draw i).2.drawHistory c x ≤ items.count x) := by
  subst h1
  cases hemp : b.remainingItems.isEmpty with
  | true =>
    have hrem : b.remainingItems = [] := by
      rwa [List.isEmpty_iff] at hemp
    simp only [RandomBag.draw, hemp, if_true]
    refine ⟨trivial, ?_, ?_, ?_⟩
    · intro x
      rw [cycleItemCount_append,
        cycleItemCount_high b.drawHistory (b.cycleCount + 1) b.cycleCount h3
          (Nat.lt_succ_self _) x]
      have hcnt := count_eraseIdx_add b.originalItems (i % b.originalItems.length) x
      by_cases hsel : b.originalItems[i % b.originalItems.length]? = some x <;>
        simp [hsel] at hcnt ⊢ <;> omega
    · intro r hr
      rcases List.mem_append.mp hr with hold | hnew
      · exact Nat.le_succ_of_le (h3 r hold)
      · simp at hnew
        subst hnew
        exact le_rfl
    · intro c hc x
      rw [cycleItemCount_append, if_neg (by rintro ⟨hcy, _⟩; simp at hcy; omega)]
      have hsplit : c < b.cycleCount ∨ c = b.cycleCount := by omega
      rcases hsplit with hlt | heq
      · simpa using h4 c hlt x
      · subst heq
        have h2x := h2 x
        rw [hrem] at h2x
        simp at h2x ⊢
        omega
  | false =>
    simp only [RandomBag.draw, hemp, Bool.false_eq_true, if_false]
    refine ⟨trivial, ?_, ?_, ?_⟩
    · intro x
      rw [cycleItemCount_append]
      have hcnt := count_eraseIdx_add b.remainingItems (i % b.remainingItems.length) x
      have h2x := h2 x
      by_cases hsel : b.remainingItems[i % b.remainingItems.length]? = some x <;>
        simp [hsel] at hcnt ⊢ <;> omega
    · intro r hr
      rcases List.mem_append.mp hr with hold | hnew
      · exact h3 r hold
      · simp at hnew
        subst hnew
        exact le_rfl
    · intro c hc x
      rw [cycleItemCount_append, if_neg (by rintro ⟨hcy, _⟩; simp at hcy; omega)]
      simpa using h4 c hc x

/-- Helper: the cycle bookkeeping invariant carried through any sequence of
`draw` calls. -/
theorem draws_inv {α : Type} [DecidableEq α] (items : List α) :
    ∀ (is : List Nat) (b : RandomBag α),
      b.originalItems = items →
      (∀ x, RandomBag.cycleItemCount b.drawHistory b.cycleCount x +
        b.remainingItems.count x = items.count x) →
      (∀ r ∈ b.drawHistory, r.cycle ≤ b.cycleCount) →
      (∀ c, c < b.cycleCount → ∀ x,
        RandomBag.cycleItemCount b.drawHistory c x ≤ items.count x) →
      ((b.applyOps (is.map RandomBag.BagOp.draw)).originalItems = items ∧
       (∀ x, RandomBag.cycleItemCount (b.applyOps (is.map RandomBag.BagOp.draw)).drawHistory
          (b.applyOps (is.map RandomBag.BagOp.draw)).cycleCount x +
          (b.applyOps (is.map RandomBag.BagOp.draw)).remainingItems.count x = items.count x) ∧
       (∀ r ∈ (b.applyOps (is.map RandomBag.BagOp.draw)).drawHistory,
          r.cycle ≤ (b.applyOps (is.map RandomBag.BagOp.draw)).cycleCount) ∧
       (∀ c, c < (b.applyOps (is.map RandomBag.BagOp.draw)).cycleCount → ∀ x,
          RandomBag.cycleItemCount (b.applyOps (is.map RandomBag.BagOp.draw)).drawHistory c x ≤
            items.count x)) := by
  intro is
  induction is with
  | nil =>
    intro b h1 h2 h3 h4
    exact ⟨h1, h2, h3, h4⟩
  | cons i is ih =>
    intro b h1 h2 h3 h4
    have step := draw_step items b i h1 h2 h3 h4
    exact ih _ step.1 step.2.1 step.2.2.1 step.2.2.2

/-- Claim C9, amended: for every bag built from an items array, any
sequence of `draw` and `reset` calls keeps the multiset of remaining items
inside the multiset of original items; and under `draw` calls alone (the
bag refilling only automatically when empty), no cycle ever records an
item more often than it occurs in the original array.  (The original claim
also allowed manual `reset` for the per-cycle bound; the counterexample
shows a mid-cycle `reset` lets an item repeat within one recorded cycle.) -/
theorem randomBag_invariants_amended {α : Type} [DecidableEq α]
    (items : List α) (ops : List RandomBag.BagOp) (is : List Nat) :
    (((RandomBag.create items).applyOps ops).remainingItems : Multiset α) ≤
      (((RandomBag.create items).applyOps ops).originalItems : Multiset α) ∧
    (∀ c x, RandomBag.cycleItemCount
        ((RandomBag.create items).applyOps (is.map RandomBag.BagOp.draw)).drawHistory c x ≤
      items.count x) := by
  constructor
  · exact applyOps_rem_le ops (RandomBag.create items) le_rfl
  · obtain ⟨H1, H2, H3, H4⟩ :=
      draws_inv items is (RandomBag.create items) rfl
        (by intro x; simp [RandomBag.create, RandomBag.cycleItemCount])
        (by simp [RandomBag.create])
        (by simp [RandomBag.create])
    intro c x
    rcases lt_trichotomy c
        ((RandomBag.create items).applyOps (is.map RandomBag.BagOp.draw)).cycleCount
      with hlt | heq | hgt
    · exact H4 c hlt x
    · have h2x := H2 x
      rw [heq]
      omega
    · rw [cycleItemCount_high _ _ _ H3 hgt]
      exact Nat.zero_le _

/-- Counterexample to claim C9 as stated: the one-item bag [0], mutated
only by `draw` and `reset` (draw, manual reset, draw), records item 0
twice in cycle 0 although it occurs once in the original array — the
per-cycle bound fails when `reset` may be called mid-cycle. -/
theorem randomBag_cycle_overdraw_counterexample :
    ¬ (RandomBag.cycleItemCount
        ((RandomBag.create [0]).applyOps
          [RandomBag.BagOp.draw 0, RandomBag.BagOp.reset, RandomBag.BagOp.draw 0]).drawHistory
        0 0 ≤ List.count 0 [0]) := by
  decide

/-! ## Theorems for the Dice Resolver -/

/-- Claim C3: resolveAttack on a natural 20 reports hit and critical
regardless of armor class; on a natural 1 reports a miss regardless of
bonus; on every other natural roll it hits exactly when roll + bonus
reaches the target armor class. -/
theorem resolveAttack_spec (attackBonus targetAC : Int) (natural : Nat) :
    ((resolveAttack attackBonus targetAC 20).hit = true ∧
     (resolveAttack attackBonus targetAC 20).critical = true) ∧
    (resolveAttack attackBonus targetAC 1).hit = false ∧
    (natural ≠ 20 → natural ≠ 1 →
      ((resolveAttack attackBonus targetAC natural).hit = true ↔
        targetAC ≤ (natural : Int) + attackBonus)) := by
  refine ⟨⟨?_, ?_⟩, ?_, ?_⟩
  · simp [resolveAttack]
  · simp [resolveAttack]
  · simp [resolveAttack]
  · intro h20 h1
    simp [resolveAttack, h20, h1]

/-- Witness for `resolveAttack_spec` at bonus 5 against AC 15 with a
natural 14. -/
theorem resolveAttack_spec_witness :
    (14 : Nat) ≠ 20 ∧ (14 : Nat) ≠ 1 ∧
      ((resolveAttack 5 15 14).hit = true ↔ (15 : Int) ≤ (14 : Int) + 5) :=
  ⟨by decide, by decide, (resolveAttack_spec 5 15 14).2.2 (by decide) (by decide)⟩

/-- Helper: a sum of `n` dice each showing between 1 and `S` lies between
`n` and `n * S`. -/
theorem diceSum_bounds (n S : Nat) (rolls : Nat → Nat)
    (h : ∀ i, i < n → 1 ≤ rolls i ∧ rolls i ≤ S) :
    (n : Int) ≤ diceSum n rolls ∧ diceSum n rolls ≤ (n : Int) * S := by
  induction n with
  | zero => simp [diceSum]
  | succ m ih =>
    have hm := ih fun i hi => h i (Nat.lt_succ_of_lt hi)
    have hlast := h m (Nat.lt_succ_self m)
    have l1 : (1 : Int) ≤ (rolls m : Int) := by exact_mod_cast hlast.1
    have l2 : (rolls m : Int) ≤ (S : Int) := by exact_mod_cast hlast.2
    have hsum : diceSum (m + 1) rolls = diceSum m rolls + (rolls m : Int) := by
      simp [diceSum, List.range_succ]
    rw [hsum]
    constructor
    · push_cast
      linarith [hm.1]
    · push_cast
      nlinarith [hm.2]

/-- Claim C6: for a valid dice expression NdS+M (count at least 1, die
size among 4, 6, 8, 10, 12, 20, 100) and die values each between 1 and S,
`rollExpression` lands in the closed interval from N + M to N·S + M. -/
theorem rollExpression_bounds (expr : DiceExpression) (rolls : Nat → Nat)
    (hvalid : 1 ≤ expr.count ∧ expr.dieSize ∈ [4, 6, 8, 10, 12, 20, 100])
    (hrolls : ∀ i, i < expr.count → 1 ≤ rolls i ∧ rolls i ≤ expr.dieSize) :
    (expr.count : Int) + expr.modifier ≤ rollExpression expr rolls ∧
    rollExpression expr rolls ≤ (expr.count : Int) * expr.dieSize + expr.modifier := by
  have h := diceSum_bounds expr.count expr.dieSize rolls hrolls
  unfold rollExpression
  constructor
  · linarith [h.1]
  · linarith [h.2]

/-- Witness for `rollExpression_bounds` on 2d6+3 with both dice showing 4. -/
theorem rollExpression_bounds_witness :
    (1 ≤ (DiceExpression.mk 2 6 3).count ∧
      (DiceExpression.mk 2 6 3).dieSize ∈ [4, 6, 8, 10, 12, 20, 100]) ∧
    (∀ i, i < (DiceExpression.mk 2 6 3).count →
      1 ≤ rollsOf [4, 4] i ∧ rollsOf [4, 4] i ≤ (DiceExpression.mk 2 6 3).dieSize) ∧
    (((DiceExpression.mk 2 6 3).count : Int) + (DiceExpression.mk 2 6 3).modifier ≤
        rollExpression (DiceExpression.mk 2 6 3) (rollsOf [4, 4]) ∧
      rollExpression (DiceExpression.mk 2 6 3) (rollsOf [4, 4]) ≤
        ((DiceExpression.mk 2 6 3).count : Int) * (DiceExpression.mk 2 6 3).dieSize +
          (DiceExpression.mk 2 6 3).modifier) :=
  ⟨⟨by decide, by decide⟩, by decide,
    rollExpression_bounds (DiceExpression.mk 2 6 3) (rollsOf [4, 4])
      ⟨by decide, by decide⟩ (by decide)⟩

/-- Claim C5: a critical `rollDamage` on NdS+M is exactly a non-critical
roll of 2N dice of size S plus M added once (the dice count doubles, the
flat modifier does not), and every `rollDamage` result is floored at 0. -/
theorem rollDamage_critical_doubles_dice (expr : DiceExpression)
    (critical : Bool) (rolls : Nat → Nat) :
    rollDamage expr true rolls =
      rollDamage (DiceExpression.mk (2 * expr.count) expr.dieSize expr.modifier) false rolls ∧
    0 ≤ rollDamage expr critical rolls := by
  constructor
  · rfl
  · exact le_max_left _ _

/-! ## Theorems for the Combatant Model -/

/-- Claim C4: for a non-negative amount, `applyDamage` succeeds, reduces
temporary HP before current HP (current HP drops only by what temporary HP
did not absorb) and floors current HP at 0, and `applyHealing` succeeds and
caps current HP at max HP; both preserve 0 ≤ current HP ≤ max HP. -/
theorem hp_invariant_preserved (c : Combatant) (amount : Int)
    (hamt : 0 ≤ amount) (hlo : 0 ≤ c.currentHP) (hhi : c.currentHP ≤ c.maxHP) :
    (∃ c2, applyDamage c amount = .ok c2 ∧
      c2.tempHP = c.tempHP - min c.tempHP amount ∧
      c2.currentHP = max 0 (c.currentHP - (amount - min c.tempHP amount)) ∧
      c2.maxHP = c.maxHP ∧ 0 ≤ c2.currentHP ∧ c2.currentHP ≤ c2.maxHP) ∧
    (∃ c3, applyHealing c amount = .ok c3 ∧
      c3.maxHP = c.maxHP ∧ 0 ≤ c3.currentHP ∧ c3.currentHP ≤ c3.maxHP) := by
  have hnot : ¬ amount < 0 := not_lt.mpr hamt
  constructor
  · refine ⟨takeDamage c amount, ?_, ?_, ?_, ?_, ?_, ?_⟩
    · simp [applyDamage, hnot]
    · rfl
    · rfl
    · rfl
    · dsimp only [takeDamage]
      omega
    · dsimp only [takeDamage]
      omega
  · refine ⟨{ c with currentHP := min c.maxHP (c.currentHP + amount) }, ?_, rfl, ?_, ?_⟩
    · simp [applyHealing, hnot]
    · dsimp only
      omega
    · dsimp only
      omega

/-- Witness for `hp_invariant_preserved`: a combatant at 12 of 20 HP with
5 temporary HP taking or healing 7. -/
theorem hp_invariant_preserved_witness :
    (0 : Int) ≤ 7 ∧ (0 : Int) ≤ (Combatant.mk 0 .player 20 12 5 15).currentHP ∧
      (Combatant.mk 0 .player 20 12 5 15).currentHP ≤ (Combatant.mk 0 .player 20 12 5 15).maxHP ∧
      ((∃ c2, applyDamage (Combatant.mk 0 .player 20 12 5 15) 7 = .ok c2 ∧
        c2.tempHP = (Combatant.mk 0 .player 20 12 5 15).tempHP -
          min (Combatant.mk 0 .player 20 12 5 15).tempHP 7 ∧
        c2.currentHP = max 0 ((Combatant.mk 0 .player 20 12 5 15).currentHP -
          (7 - min (Combatant.mk 0 .player 20 12 5 15).tempHP 7)) ∧
        c2.maxHP = (Combatant.mk 0 .player 20 12 5 15).maxHP ∧
        0 ≤ c2.currentHP ∧ c2.currentHP ≤ c2.maxHP) ∧
      (∃ c3, applyHealing (Combatant.mk 0 .player 20 12 5 15) 7 = .ok c3 ∧
        c3.maxHP = (Combatant.mk 0 .player 20 12 5 15).maxHP ∧
        0 ≤ c3.currentHP ∧ c3.currentHP ≤ c3.maxHP)) :=
  ⟨by norm_num, by norm_num, by norm_num,
    hp_invariant_preserved (Combatant.mk 0 .player 20 12 5 15) 7
      (by norm_num) (by norm_num) (by norm_num)⟩

/-! ## Theorems for the Encounter State Machine -/

/-- Claim C7: in any terminal lifecycle state (Resolved, Fled or Aborted)
every action request fails with EncounterClosed, and running a request
against the encounter leaves it unchanged — no transition leaves a terminal
state. -/
theorem terminal_state_rejects (e : Encounter) (req : Request)
    (hterm : e.lifecycle = .Resolved ∨ e.lifecycle = .Fled ∨ e.lifecycle = .Aborted) :
    submitAction e req = .error .EncounterClosed ∧ runRequests e [req] = e := by
  have hsub : submitAction e req = .error .EncounterClosed := by
    rcases hterm with h | h | h <;> · unfold submitAction; rw [h]
  exact ⟨hsub, by simp [runRequests, hsub]⟩

/-- Witness for `terminal_state_rejects`: a resolved empty encounter
rejects a flee request. -/
theorem terminal_state_rejects_witness :
    ((Encounter.mk .Resolved [] 1 0 []).lifecycle = .Resolved ∨
      (Encounter.mk .Resolved [] 1 0 []).lifecycle = .Fled ∨
      (Encounter.mk .Resolved [] 1 0 []).lifecycle = .Aborted) ∧
    (submitAction (Encounter.mk .Resolved [] 1 0 []) (.flee .player) =
        .error .EncounterClosed ∧
      runRequests (Encounter.mk .Resolved [] 1 0 []) [.flee .player] =
        Encounter.mk .Resolved [] 1 0 []) :=
  ⟨Or.inl rfl,
    terminal_state_rejects (Encounter.mk .Resolved [] 1 0 []) (.flee .player) (Or.inl rfl)⟩

/-- Helper: a successful `submitAction` either leaves combatants and log
alone (flee) or extends the log by one resolution and applies exactly that
resolution to the combatants — the no-mutation-without-log-entry policy. -/
theorem submitAction_ok_shape (e : Encounter) (req : Request) (e2 : Encounter)
    (h : submitAction e req = .ok e2) :
    (e2.combatants = e.combatants ∧ e2.log = e.log) ∨
    ∃ res, e2.combatants = applyResolution e.combatants res ∧ e2.log = e.log ++ [res] := by
  unfold submitAction at h
  split at h <;> try exact Except.noConfusion h
  split at h <;> try exact Except.noConfusion h
  split at h
  · split at h
    · injection h with h2
      subst h2
      exact Or.inl ⟨rfl, rfl⟩
    · exact Except.noConfusion h
  · split at h
    · exact Except.noConfusion h
    · split at h <;> try exact Except.noConfusion h
      split at h
      · exact Except.noConfusion h
      · injection h with h2
        subst h2
        exact Or.inr ⟨_, rfl, rfl⟩

/-- Helper: the replay invariant — if replaying the log so far reproduces
the current combatants, it still does after any further request sequence. -/
theorem replay_invariant (cs0 : List Combatant) (rs : List Request) (e : Encounter)
    (h : replay cs0 e.log = e.combatants) :
    replay cs0 (runRequests e rs).log = (runRequests e rs).combatants := by
  induction rs generalizing e with
  | nil => simpa [runRequests] using h
  | cons r rs ih =>
    rw [runRequests]
    cases hsa : submitAction e r with
    | error err =>
      exact ih e h
    | ok e2 =>
      refine ih e2 ?_
      rcases submitAction_ok_shape e r e2 hsa with ⟨hc, hl⟩ | ⟨res, hc, hl⟩
      · rw [hc, hl]
        exact h
      · rw [hc, hl]
        rw [replay, List.foldl_append]
        rw [replay] at h
        rw [h]
        rfl

/-- Claim C2: for every encounter reaching a terminal state, replaying the
append-only action log in order from the initial combatant snapshots (the
roll outcomes being recorded in the log) reproduces the final combatant
states exactly. -/
theorem action_log_replay_reproduces_final (cs : List Combatant) (rs : List Request)
    (hterm : (runRequests (mkEncounter cs) rs).lifecycle = .Resolved ∨
      (runRequests (mkEncounter cs) rs).lifecycle = .Fled ∨
      (runRequests (mkEncounter cs) rs).lifecycle = .Aborted) :
    replay cs (runRequests (mkEncounter cs) rs).log =
      (runRequests (mkEncounter cs) rs).combatants :=
  replay_invariant cs rs (mkEncounter cs) rfl

/-- Witness for `action_log_replay_reproduces_final`: a player one-shots a
1-HP monster with a critical, resolving the encounter. -/
theorem action_log_replay_reproduces_final_witness :
    ((runRequests (mkEncounter
        [Combatant.mk 0 .player 20 20 0 15, Combatant.mk 1 .monster 10 1 0 10])
        [Request.attack 0 1 5 (DiceExpression.mk 1 4 0) 20 [1, 1]]).lifecycle = .Resolved ∨
      (runRequests (mkEncounter
        [Combatant.mk 0 .player 20 20 0 15, Combatant.mk 1 .monster 10 1 0 10])
        [Request.attack 0 1 5 (DiceExpression.mk 1 4 0) 20 [1, 1]]).lifecycle = .Fled ∨
      (runRequests (mkEncounter
        [Combatant.mk 0 .player 20 20 0 15, Combatant.mk 1 .monster 10 1 0 10])
        [Request.attack 0 1 5 (DiceExpression.mk 1 4 0) 20 [1, 1]]).lifecycle = .Aborted) ∧
    replay [Combatant.mk 0 .player 20 20 0 15, Combatant.mk 1 .monster 10 1 0 10]
        (runRequests (mkEncounter
          [Combatant.mk 0 .player 20 20 0 15, Combatant.mk 1 .monster 10 1 0 10])
          [Request.attack 0 1 5 (DiceExpression.mk 1 4 0) 20 [1, 1]]).log =
      (runRequests (mkEncounter
        [Combatant.mk 0 .player 20 20 0 15, Combatant.mk 1 .monster 10 1 0 10])
        [Request.attack 0 1 5 (DiceExpression.mk 1 4 0) 20 [1, 1]]).combatants :=
  ⟨Or.inl (by decide),
    action_log_replay_reproduces_final
      [Combatant.mk 0 .player 20 20 0 15, Combatant.mk 1 .monster 10 1 0 10]
      [Request.attack 0 1 5 (DiceExpression.mk 1 4 0) 20 [1, 1]]
      (Or.inl (by decide))⟩

end Sisteama
